import Mathlib

/-!
A shallow embedding of the evaluation runner `util/tester.py` of the
Seg2Eye repository (class `Tester`), together with proofs about its
batch-limit loop, index-selection policy, error-log writing, and test
output generation.

External collaborators (the dataloader, the model's inference call, the
MSE calculator, the visualizer) are modelled as opaque data: function
parameters and fields of a `Dataset` record.  Everything that is logic of
`tester.py` itself (loops, thresholds, string dispatch, slicing, file
naming, assertions) is embedded faithfully.
-/

namespace Seg2Eye

/-- Test `charsStartsWith sub s`: does the character list `s` start with `sub`. -/
def charsStartsWith : List Char → List Char → Bool
  | [], _ => true
  | _ :: _, [] => false
  | a :: as, b :: bs => a = b && charsStartsWith as bs

/-- Test `charsContainsSub sub s`: does `s` contain `sub` as a contiguous run. -/
def charsContainsSub (sub : List Char) : List Char → Bool
  | [] => sub.isEmpty
  | c :: cs => charsStartsWith sub (c :: cs) || charsContainsSub sub cs

/-- Python's substring test `sub in s`. -/
def strContains (s sub : String) : Bool :=
  charsContainsSub sub.data s.data

/-- Python list slicing `xs[:stop]`, with a possibly negative stop index. -/
def pySliceTo (xs : List α) (stop : Int) : List α :=
  if 0 ≤ stop then xs.take stop.toNat
  else xs.take (xs.length - min xs.length stop.natAbs)

/-- One batch produced by the dataloader during validation, as `tester.py`
sees it: `size` is `data_i['label'].shape[0]` (the leading dimension shared
by all fields of the batch), `users` is `data_i['user']` and `filenames` is
`data_i['filename']`. -/
structure ValBatch where
  size : Nat
  users : List String
  filenames : List String
deriving DecidableEq

/-- The dataset/dataloader abstraction `tester.py` is built over (external
collaborator).  `N` is `dataloader.dataset.N`; `batches` is the sequential
iteration order of the dataloader; `get_particular i` is
`dataloader.dataset.get_particular(i)` (one batch for index `i`);
`get_random_indices` and `validation_indices` are the dataset's index
services used by `_get_validation_indices`. -/
structure Dataset where
  N : Nat
  batches : List ValBatch
  get_particular : Nat → ValBatch
  get_random_indices : Int → List Nat
  validation_indices : List Nat

/-- Model of `Tester._get_validation_indices(mode, limit)` (tester.py lines 153-163):
substring dispatch on `mode`, in source order `'rand'`, `'fix'`, `'full'`;
`None` (here `Option.none`) means no index restriction; an unrecognized
mode raises `ValueError(f"Invalid mode: {mode}")`, modelled as `.error`. -/
def get_validation_indices (ds : Dataset) (mode : String) (limit : Int) :
    Except String (Option (List Nat)) :=
  if strContains mode "rand" then
    .ok (some (ds.get_random_indices limit))
  else if strContains mode "fix" then
    .ok (some (pySliceTo ds.validation_indices limit))
  else if strContains mode "full" then
    .ok none
  else
    .error ("Invalid mode: " ++ mode)

/-- Model of `Tester.get_iterator(dataloader, indices)` (tester.py lines 49-65): with
no indices, yield the dataloader's batches in order; with indices, yield
`dataset.get_particular(i)` for each index in order. -/
def get_iterator (ds : Dataset) (indices : Option (List Nat)) : List ValBatch :=
  match indices with
  | none => ds.batches
  | some idxs => idxs.map ds.get_particular

/-- The batch loop of `Tester.run_validation` (tester.py lines 106-115):
`counter` starts at 0; for each batch the counter is first increased by the
batch's sample count (`data_i['label'].shape[0]`), then if `counter > limit`
the loop breaks WITHOUT processing that batch; otherwise
`run_batch` (modelled by the parameter `runBatch`, the external
model-inference + MSE computation producing one error per sample) is run
and its errors appended to `all_errors`. -/
def run_validation_loop (runBatch : ValBatch → List E) (limit : Int) :
    Int → List ValBatch → List E
  | _, [] => []
  | counter, b :: rest =>
    let counter' := counter + b.size
    if limit < counter' then []
    else runBatch b ++ run_validation_loop runBatch limit counter' rest

/-- Model of `self.is_validation` (tester.py line 37):
`self.opt.dataset_key in ["validation", "train"]`. -/
def is_validation (dataset_key : String) : Bool :=
  dataset_key = "validation" || dataset_key = "train"

/-- Model of `Tester.run_validation(model, generator, limit, ...)` (tester.py lines
98-121): asserts `self.is_validation` before touching the generator
(modelled as `.error` on an `AssertionError`), then runs the counter loop
and returns `all_errors`.  The optional error-log writing of the same loop
is modelled separately by `prepare_error_log` / `write_error_log_batch`,
which receive the loop's batch index `i`; it does not affect the returned
error list. -/
def run_validation (dataset_key : String) (runBatch : ValBatch → List E)
    (limit : Int) (generator : List ValBatch) : Except String (List E) :=
  if is_validation dataset_key then
    .ok (run_validation_loop runBatch limit 0 generator)
  else
    .error "Must be in validation mode"

/-- Outcome of a successful `Tester.run`: the limit after resolution at
line 167 of tester.py, the index selection passed to `get_iterator`, and
the error list returned by `run_validation`. -/
structure RunResult (E : Type) where
  resolvedLimit : Int
  indices : Option (List Nat)
  all_errors : List E
deriving DecidableEq

/-- Model of `Tester.run(model, mode, ..., limit, ...)` (tester.py lines 165-173):
resolves `limit = limit if limit > 0 else dataset.N`, selects indices for
`mode` with the resolved limit, builds the iterator, and calls
`run_validation` with the same resolved limit.  The statistics printing at
the end consumes `all_errors` without changing it and is not modelled. -/
def run (ds : Dataset) (dataset_key : String) (runBatch : ValBatch → List E)
    (mode : String) (limit : Int) : Except String (RunResult E) :=
  let limit := if 0 < limit then limit else (ds.N : Int)
  match get_validation_indices ds mode limit with
  | .error e => .error e
  | .ok indices =>
    match run_validation dataset_key runBatch limit (get_iterator ds indices) with
    | .error e => .error e
    | .ok errs => .ok ⟨limit, indices, errs⟩

/-- Numpy fixed-width byte-string conversion `np.array(s, dtype='S<k>')`
applied elementwise: a string is truncated to its first `k` characters. -/
def npS (k : Nat) (s : String) : String :=
  String.mk (s.data.take k)

/-- Helper for `sliceAssign`: walk the array keeping the running absolute
position `j`; a cell inside `[lo, hi)` receives the value of `vals` at
offset `j - lo` when it exists. -/
def sliceAssignFrom (lo hi : Nat) (vals : List α) :
    Nat → List (Option α) → List (Option α)
  | _, [] => []
  | j, x :: xs =>
    (if lo ≤ j ∧ j < hi then
      match vals.get? (j - lo) with
      | some v => some v
      | none => x
    else x) :: sliceAssignFrom lo hi vals (j + 1) xs

/-- h5py dataset slice assignment `dset[lo:hi] = vals`, on a dataset
modelled as a list of cells; a cell is `none` while never written. -/
def sliceAssign (xs : List (Option α)) (lo hi : Nat) (vals : List α) :
    List (Option α) :=
  sliceAssignFrom lo hi vals 0 xs

/-- The h5py error-log file: four parallel datasets.  `E` is the scalar
error type (float in the source), `V` the type of one rendered
visualisation image of shape `(1, 380, 1000)`; a cell holds `none` while
its row was never written. -/
structure ErrorLog (E V : Type) where
  error : List (Option E)
  user : List (Option String)
  filename : List (Option String)
  visualisation : List (Option V)

/-- Model of `Tester._prepare_error_log` (tester.py lines 67-73): creates the four
datasets `error`, `user` (dtype S4), `filename` (dtype S13) and
`visualisation`, every one with leading dimension `N`, no row written
yet. -/
def prepare_error_log (E V : Type) (N : Nat) : ErrorLog E V :=
  { error := List.replicate N none
    user := List.replicate N none
    filename := List.replicate N none
    visualisation := List.replicate N none }

/-- Model of `Tester._write_error_log_batch(error_log, data_i, i, fake, errors)`
(tester.py lines 75-90): computes `idx_from = i * batchSize` and
`idx_to = i * batchSize + batchSize` and slice-assigns the batch's users
(truncated to S4), filenames (truncated to S13), errors, and rendered
visualisation rows into that range.  `vis` models the output of the
external `visualize_sidebyside` after the `(v + 1) * 128` rescaling. -/
def write_error_log_batch (batchSize : Nat) (log : ErrorLog E V)
    (data_i : ValBatch) (i : Nat) (errors : List E) (vis : List V) :
    ErrorLog E V :=
  let idx_from := i * batchSize
  let idx_to := i * batchSize + batchSize
  { user := sliceAssign log.user idx_from idx_to (data_i.users.map (npS 4))
    filename :=
      sliceAssign log.filename idx_from idx_to (data_i.filenames.map (npS 13))
    error := sliceAssign log.error idx_from idx_to errors
    visualisation := sliceAssign log.visualisation idx_from idx_to vis }

/-- One batch as seen by `Tester.run_test`: the per-sample `filename`
field, and `fake_resized` — the per-sample pixel arrays produced by the
external post-processor `ImageProcessor.to_255resized_imagebatch`
(flattened; only the multiset of pixel values matters to the claims). -/
structure TestBatch where
  filenames : List String
  fake_resized : List (List Int)
deriving DecidableEq

/-- Model of `os.path.join(dir, f)` for a relative `f`. -/
def pathJoin (dir f : String) : String :=
  dir ++ "/" ++ f

/-- Model of `re.sub(r'\.', '', f)` (tester.py line 203): delete every occurrence
of the pattern, i.e. every literal `'.'` character, scanning left to
right. -/
def re_sub_dots_chars : List Char → List Char
  | [] => []
  | c :: cs => if c = '.' then re_sub_dots_chars cs else c :: re_sub_dots_chars cs

/-- Model of `re.sub(r'\.', '', f)` on a string. -/
def re_sub_dots (s : String) : String :=
  String.mk (re_sub_dots_chars s.data)

/-- The assertion of tester.py line 209 on one sample:
`torch.min(fake_resized[b]) >= 0 and torch.max(fake_resized[b]) <= 255`,
i.e. every pixel value lies in `[0, 255]`. -/
def inRange255 (v : Int) : Bool :=
  0 ≤ v && v ≤ 255

/-- The inner loop `for b in range(len(img_filename))` of `run_test`
(tester.py lines 207-211), on one batch whose filenames are already
dot-stripped.  For each sample in order: build the output path, assert the
pixel range, then `np.save` the array (the subsequent
`.astype(np.uint8)` cast is value-preserving under the just-checked
bound, so the saved values are recorded unchanged) and append the path.
Returns the `(path, array)` pairs written and whether the loop completed;
an assertion failure (or an index past the end of `fake_resized`, an
IndexError in Python) aborts before writing the offending sample's file,
keeping the files already written. -/
def writeSamples (dir : String) :
    List String → List (List Int) → List (String × List Int) × Bool
  | [], _ => ([], true)
  | _ :: _, [] => ([], false)
  | name :: names, pred :: preds =>
    if pred.all inRange255 then
      let rest := writeSamples dir names preds
      ((pathJoin dir (name ++ ".npy"), pred) :: rest.1, rest.2)
    else ([], false)

/-- The outer loop of `Tester.run_test` (tester.py lines 196-211) from
batch index `i` on: before each batch, break when
`limit > 0 and i * batchSize >= limit`; otherwise strip dots from the
batch's filenames and run the per-sample write loop, aborting the whole
run if that batch aborted. -/
def run_test_loop (dir : String) (batchSize : Nat) (limit : Int) :
    Nat → List TestBatch → List (String × List Int) × Bool
  | _, [] => ([], true)
  | i, batch :: rest =>
    if 0 < limit ∧ limit ≤ (i * batchSize : Int) then ([], true)
    else
      let img_filename := batch.filenames.map re_sub_dots
      let w := writeSamples dir img_filename batch.fake_resized
      if w.2 then
        let w' := run_test_loop dir batchSize limit (i + 1) rest
        (w.1 ++ w'.1, w'.2)
      else (w.1, false)

/-- Result of `Tester.run_test`: the `(path, array)` files written by
`np.save`, in order, and the contents of the manifest
`pred_npy_list.txt` (the collected `filepaths`, one per line, written only
when the loop finished without a failed assertion — `none` models the
exception propagating before the manifest is written). -/
structure TestRun where
  written : List (String × List Int)
  manifest : Option (List String)
deriving DecidableEq

/-- Model of `Tester.run_test(model, limit)` (tester.py lines 193-219). -/
def run_test (dir : String) (batchSize : Nat) (limit : Int)
    (batches : List TestBatch) : TestRun :=
  let w := run_test_loop dir batchSize limit 0 batches
  { written := w.1
    manifest := if w.2 then some (w.1.map Prod.fst) else none }

/-- PyTorch-dataloader batch shape (batch sizes with `drop_last=False`):
every batch except possibly the last holds exactly `batchSize` samples. -/
def dataloaderBatched (batchSize : Nat) : List TestBatch → Prop
  | [] => True
  | [_] => True
  | B :: rest => B.filenames.length = batchSize ∧ dataloaderBatched batchSize rest

/-- A small concrete dataset used to exercise the theorems: 4 samples,
`get_random_indices limit = [limit.toNat]`, fixed validation indices
`[5, 6, 7]`. -/
def dsW : Dataset :=
  { N := 4
    batches := [⟨2, ["u1", "u2"], ["a", "b"]⟩, ⟨2, ["u3", "u4"], ["c", "d"]⟩]
    get_particular := fun i => ⟨1, [toString i], [toString i]⟩
    get_random_indices := fun limit => [limit.toNat]
    validation_indices := [5, 6, 7] }

/-- C2: index selection dispatches on substrings of `mode` with fixed
priority `"rand"` before `"fix"` before `"full"`: a mode containing
`"rand"` always requests random indices (the `"fix"`/`"full"` branches are
never taken, even if those substrings also occur); a mode containing
`"fix"` but not `"rand"` takes the first `limit` entries of the dataset's
fixed validation index list; a mode containing `"full"` but neither
`"rand"` nor `"fix"` yields no index restriction. -/
theorem get_validation_indices_priority (ds : Dataset) (mode : String) (limit : Int) :
    (strContains mode "rand" = true →
      get_validation_indices ds mode limit = .ok (some (ds.get_random_indices limit))) ∧
    (strContains mode "rand" = false → strContains mode "fix" = true → 0 ≤ limit →
      get_validation_indices ds mode limit =
        .ok (some (ds.validation_indices.take limit.toNat))) ∧
    (strContains mode "rand" = false → strContains mode "fix" = false →
      strContains mode "full" = true →
      get_validation_indices ds mode limit = .ok none) := by
  refine ⟨fun hr => ?_, fun hr hf hl => ?_, fun hr hf hu => ?_⟩ <;>
    simp [get_validation_indices, pySliceTo, hr, *]

/-- Witness for C2: the mode `"fixrandom"` contains both `"rand"` and
`"fix"` and is treated as random; `"prefix"` contains `"fix"` only;
`"full"` gives no restriction. -/
theorem get_validation_indices_priority_witness :
    get_validation_indices dsW "fixrandom" 2 = .ok (some [2]) ∧
    get_validation_indices dsW "prefix" 2 = .ok (some [5, 6]) ∧
    get_validation_indices dsW "full" 2 = .ok none :=
  ⟨(get_validation_indices_priority dsW "fixrandom" 2).1 (by decide),
   (get_validation_indices_priority dsW "prefix" 2).2.1 (by decide) (by decide)
     (by decide),
   (get_validation_indices_priority dsW "full" 2).2.2 (by decide) (by decide)
     (by decide)⟩

/-- C6: for a mode containing none of `"rand"`, `"fix"`, `"full"`, index
selection fails immediately with a `ValueError` whose message names the
mode; no indices are produced, and the surrounding `run` propagates the
error so that no batch is processed (no error list is returned). -/
theorem get_validation_indices_invalid_mode {E : Type} (ds : Dataset)
    (dataset_key : String) (runBatch : ValBatch → List E) (mode : String)
    (limit limit0 : Int)
    (hr : strContains mode "rand" = false) (hf : strContains mode "fix" = false)
    (hu : strContains mode "full" = false) :
    get_validation_indices ds mode limit = .error ("Invalid mode: " ++ mode) ∧
    run ds dataset_key runBatch mode limit0 = .error ("Invalid mode: " ++ mode) := by
  constructor
  · simp [get_validation_indices, hr, hf, hu]
  · simp [run, get_validation_indices, hr, hf, hu]

/-- Witness for C6: the mode `"foo"` is rejected with a message naming it,
both in index selection and through `run`. -/
theorem get_validation_indices_invalid_mode_witness :
    get_validation_indices dsW "foo" 3 = .error "Invalid mode: foo" ∧
    run dsW "validation" (fun b => List.replicate b.size (0 : Nat)) "foo" (-1) =
      .error "Invalid mode: foo" :=
  get_validation_indices_invalid_mode dsW "validation"
    (fun b => List.replicate b.size (0 : Nat)) "foo" 3 (-1)
    (by decide) (by decide) (by decide)

/-- C7: `run_validation` fails fast, before touching the generator, with
the assertion `"Must be in validation mode"` — and it does so exactly when
the runner's `dataset_key` is neither `"validation"` nor `"train"`. -/
theorem run_validation_requires_validation_split {E : Type} (dataset_key : String)
    (runBatch : ValBatch → List E) (limit : Int) (generator : List ValBatch) :
    ((∃ msg, run_validation dataset_key runBatch limit generator = .error msg) ↔
      (dataset_key ≠ "validation" ∧ dataset_key ≠ "train")) ∧
    (dataset_key ≠ "validation" → dataset_key ≠ "train" →
      run_validation dataset_key runBatch limit generator =
        .error "Must be in validation mode") := by
  by_cases hv : dataset_key = "validation"
  · constructor
    · simp [run_validation, is_validation, hv]
    · intro h; exact absurd hv h
  · by_cases ht : dataset_key = "train"
    · constructor
      · simp [run_validation, is_validation, ht]
      · intro _ h; exact absurd ht h
    · constructor
      · simp [run_validation, is_validation, hv, ht]
      · intro _ _; simp [run_validation, is_validation, hv, ht]

/-- Witness for C7: a runner built for the `"test"` split rejects
`run_validation` before processing its (non-empty) generator. -/
theorem run_validation_requires_validation_split_witness :
    run_validation "test" (fun b => List.replicate b.size (0 : Nat)) 5
      [⟨1, ["u"], ["f"]⟩] = .error "Must be in validation mode" :=
  (run_validation_requires_validation_split "test"
    (fun b => List.replicate b.size (0 : Nat)) 5 [⟨1, ["u"], ["f"]⟩]).2
    (by decide) (by decide)

/-- C8: `run` resolves its `limit` before selecting indices — every
`limit ≤ 0` is replaced by the dataset's size `N`, every `limit > 0` is
kept unchanged — and the resolved value is the one passed both to
`get_validation_indices` and to `run_validation`. -/
theorem run_resolves_limit {E : Type} (ds : Dataset) (dataset_key : String)
    (runBatch : ValBatch → List E) (mode : String) (limit : Int) :
    ∃ L : Int, (limit ≤ 0 → L = (ds.N : Int)) ∧ (0 < limit → L = limit) ∧
      run ds dataset_key runBatch mode limit =
        match get_validation_indices ds mode L with
        | .error e => .error e
        | .ok indices =>
          match run_validation dataset_key runBatch L (get_iterator ds indices) with
          | .error e => .error e
          | .ok errs => .ok ⟨L, indices, errs⟩ := by
  refine ⟨if 0 < limit then limit else (ds.N : Int), fun h => ?_, fun h => ?_, rfl⟩
  · rw [if_neg (not_lt.mpr h)]
  · rw [if_pos h]

/-- Characterization of the `run_validation` counter loop, for any starting
counter `c`: the processed batches are a prefix `take k`; whenever at
least one batch was processed the counter after the last processed batch
is still at most `limit`; and if the loop stopped before the end of the
sequence, the next batch would have pushed the counter past `limit`. -/
theorem run_validation_loop_char {E : Type} (runBatch : ValBatch → List E)
    (limit : Int) :
    ∀ (batches : List ValBatch) (c : Int),
      ∃ k, k ≤ batches.length ∧
        run_validation_loop runBatch limit c batches =
          (batches.take k).flatMap runBatch ∧
        (0 < k → c + (((batches.take k).map ValBatch.size).sum : Int) ≤ limit) ∧
        (k < batches.length →
          limit < c + (((batches.take (k + 1)).map ValBatch.size).sum : Int)) := by
  intro batches
  induction batches with
  | nil =>
    intro c
    exact ⟨0, by simp [run_validation_loop]⟩
  | cons b rest ih =>
    intro c
    by_cases h : limit < c + (b.size : Int)
    · refine ⟨0, by simp, ?_, ?_, ?_⟩
      · simp [run_validation_loop, h]
      · intro h0; omega
      · intro _; simpa using h
    · obtain ⟨k, hk, heq, hle, hgt⟩ := ih (c + (b.size : Int))
      refine ⟨k + 1, by simpa using hk, ?_, ?_, ?_⟩
      · simp only [run_validation_loop, if_neg h, List.take_succ_cons,
          List.flatMap_cons]
        rw [heq]
      · intro _
        rcases Nat.eq_zero_or_pos k with hk0 | hk0
        · subst hk0
          simpa using not_lt.mp h
        · have hc := hle hk0
          simp only [List.take_succ_cons, List.map_cons, List.sum_cons]
          push_cast at hc ⊢
          omega
      · intro hlt
        have hc := hgt (by simp only [List.length_cons] at hlt; omega)
        simp only [List.take_succ_cons, List.map_cons, List.sum_cons]
        push_cast at hc ⊢
        omega

/-- C1 (amended): `run_validation` consumes batches until the sequence is
exhausted or the cumulative sample count — already including the batch
under consideration — exceeds `limit`, with the threshold checked before
processing each batch; a batch that straddles the limit is NOT processed
(the loop breaks without running it), so the processed batches form a
prefix whose cumulative sample count is at most `max limit 0`, the break
happens exactly at the first batch that would push the count past
`limit`, and the number of processed samples never exceeds `limit`. -/
theorem run_validation_stops_before_straddling_batch {E : Type}
    (runBatch : ValBatch → List E) (limit : Int) (batches : List ValBatch)
    (hlen : ∀ b, (runBatch b).length = b.size) :
    ∃ k, k ≤ batches.length ∧
      run_validation_loop runBatch limit 0 batches =
        (batches.take k).flatMap runBatch ∧
      (((batches.take k).map ValBatch.size).sum : Int) ≤ max limit 0 ∧
      (k < batches.length →
        limit < (((batches.take (k + 1)).map ValBatch.size).sum : Int)) ∧
      (run_validation_loop runBatch limit 0 batches).length ≤ (max limit 0).toNat := by
  obtain ⟨k, hk, heq, hle, hgt⟩ :=
    run_validation_loop_char runBatch limit batches 0
  have hsum : ((batches.take k).map (List.length ∘ runBatch)).sum =
      ((batches.take k).map ValBatch.size).sum := by
    congr 1
    exact List.map_congr_left fun b _ => by simp [Function.comp, hlen b]
  have hbound : (((batches.take k).map ValBatch.size).sum : Int) ≤ max limit 0 := by
    rcases Nat.eq_zero_or_pos k with hk0 | hk0
    · subst hk0; simp
    · have hc := hle hk0
      omega
  refine ⟨k, hk, heq, hbound, fun hlt => by simpa using hgt hlt, ?_⟩
  rw [heq, List.length_flatMap, hsum]
  omega

/-- Witness for C1: two batches of 2 samples each under `limit = 3`; the
first is processed, the second (straddling) is not. -/
theorem run_validation_stops_before_straddling_batch_witness :
    ∃ k, k ≤ 2 ∧
      run_validation_loop (fun b => List.replicate b.size (0 : Nat)) 3 0
          [⟨2, ["u1", "u2"], ["f1", "f2"]⟩, ⟨2, ["u3", "u4"], ["f3", "f4"]⟩] =
        (([⟨2, ["u1", "u2"], ["f1", "f2"]⟩,
           ⟨2, ["u3", "u4"], ["f3", "f4"]⟩] : List ValBatch).take k).flatMap
          (fun b => List.replicate b.size (0 : Nat)) ∧
      (((([⟨2, ["u1", "u2"], ["f1", "f2"]⟩,
           ⟨2, ["u3", "u4"], ["f3", "f4"]⟩] : List ValBatch).take k).map
          ValBatch.size).sum : Int) ≤ max 3 0 ∧
      (k < 2 →
        (3 : Int) < (((([⟨2, ["u1", "u2"], ["f1", "f2"]⟩,
          ⟨2, ["u3", "u4"], ["f3", "f4"]⟩] : List ValBatch).take (k + 1)).map
            ValBatch.size).sum : Int)) ∧
      (run_validation_loop (fun b => List.replicate b.size (0 : Nat)) 3 0
          [⟨2, ["u1", "u2"], ["f1", "f2"]⟩,
           ⟨2, ["u3", "u4"], ["f3", "f4"]⟩]).length ≤ ((max 3 0 : Int)).toNat :=
  run_validation_stops_before_straddling_batch
    (fun b => List.replicate b.size (0 : Nat)) 3
    [⟨2, ["u1", "u2"], ["f1", "f2"]⟩, ⟨2, ["u3", "u4"], ["f3", "f4"]⟩]
    (fun b => by simp)

/-- Counterexample to C1 as stated: with `limit = 1` and a single batch
of 2 samples — a batch that straddles the limit — `run_validation`
returns no errors at all: the straddling batch is not "fully processed"
(full processing would have returned its 2 per-sample errors), and the
processed sample count does not exceed `limit`. -/
theorem run_validation_straddling_batch_not_processed :
    run_validation "validation" (fun b => List.replicate b.size (0 : Nat)) 1
      [⟨2, ["u1", "u2"], ["f1", "f2"]⟩] = .ok [] ∧
    run_validation "validation" (fun b => List.replicate b.size (0 : Nat)) 1
      [⟨2, ["u1", "u2"], ["f1", "f2"]⟩] ≠ .ok [0, 0] := by
  refine ⟨rfl, fun h => ?_⟩
  rw [show run_validation "validation"
      (fun b => List.replicate b.size (0 : Nat)) 1
      [⟨2, ["u1", "u2"], ["f1", "f2"]⟩] = .ok [] from rfl] at h
  simp at h

/-- C10: whenever `run_validation` succeeds, the loop has broken before
the first batch whose samples would push the cumulative count past `L`,
so the returned error list has at most `max L 0` entries; in particular
for `L ≤ 0` — including the default `limit = -1` — no batch is processed
and the error list is empty. -/
theorem run_validation_limit_bound {E : Type} (dataset_key : String)
    (runBatch : ValBatch → List E) (L : Int) (batches : List ValBatch)
    (errs : List E)
    (hlen : ∀ b, (runBatch b).length = b.size)
    (hne : ∀ b ∈ batches, 0 < b.size)
    (hrun : run_validation dataset_key runBatch L batches = .ok errs) :
    errs.length ≤ (max L 0).toNat ∧ (L ≤ 0 → errs = []) := by
  have herrs : errs = run_validation_loop runBatch L 0 batches := by
    by_cases hv : is_validation dataset_key
    · simp [run_validation, hv] at hrun
      exact hrun.symm
    · simp [run_validation, hv] at hrun
  subst herrs
  constructor
  · obtain ⟨k, hk, heq, hle, hgt⟩ :=
      run_validation_loop_char runBatch L batches 0
    have hsum : ((batches.take k).map (List.length ∘ runBatch)).sum =
        ((batches.take k).map ValBatch.size).sum := by
      congr 1
      exact List.map_congr_left fun b _ => by simp [Function.comp, hlen b]
    rw [heq, List.length_flatMap, hsum]
    rcases Nat.eq_zero_or_pos k with hk0 | hk0
    · subst hk0; simp
    · have hc := hle hk0
      omega
  · intro hL
    cases batches with
    | nil => rfl
    | cons b rest =>
      have hb : 0 < b.size := hne b (List.mem_cons_self b rest)
      simp only [run_validation_loop]
      rw [if_pos (by omega)]

/-- Witness for C10: the default `limit = -1` on a generator holding one
non-empty batch yields the empty error list. -/
theorem run_validation_limit_bound_witness :
    List.length ([] : List Nat) ≤ (max (-1 : Int) 0).toNat ∧
    ((-1 : Int) ≤ 0 → ([] : List Nat) = []) :=
  run_validation_limit_bound "validation"
    (fun b => List.replicate b.size (0 : Nat)) (-1) [⟨1, ["u"], ["f"]⟩] []
    (fun b => by simp) (by decide) rfl

theorem sliceAssignFrom_length (lo hi : Nat) (vals : List α) :
    ∀ (xs : List (Option α)) (j : Nat),
      (sliceAssignFrom lo hi vals j xs).length = xs.length := by
  intro xs
  induction xs with
  | nil => intro j; rfl
  | cons x xs ih =>
    intro j
    simp [sliceAssignFrom, ih]

/-- Cell `k` of a slice assignment starting at absolute position `j`. -/
theorem sliceAssignFrom_get? (lo hi : Nat) (vals : List α) :
    ∀ (xs : List (Option α)) (j k : Nat),
      (sliceAssignFrom lo hi vals j xs).get? k =
        (xs.get? k).map (fun x =>
          if lo ≤ j + k ∧ j + k < hi then
            match vals.get? (j + k - lo) with
            | some v => some v
            | none => x
          else x) := by
  intro xs
  induction xs with
  | nil => intro j k; rfl
  | cons x xs ih =>
    intro j k
    cases k with
    | zero => simp [sliceAssignFrom]
    | succ k =>
      simp only [sliceAssignFrom, List.get?_cons_succ]
      rw [ih (j + 1) k]
      have harith : j + 1 + k = j + (k + 1) := by omega
      rw [harith]

theorem sliceAssign_get? (xs : List (Option α)) (lo hi : Nat) (vals : List α)
    (k : Nat) :
    (sliceAssign xs lo hi vals).get? k =
      (xs.get? k).map (fun x =>
        if lo ≤ k ∧ k < hi then
          match vals.get? (k - lo) with
          | some v => some v
          | none => x
        else x) := by
  simpa using sliceAssignFrom_get? lo hi vals xs 0 k

theorem replicate_none_get? (N k : Nat) (hk : k < N) :
    (List.replicate N (none : Option α)).get? k = some none := by
  simp [List.get?_eq_getElem?, List.getElem?_replicate, hk]

/-- C5: the four error-log datasets are all created with length `N` (the
dataset's total sample count), slice-writing a batch preserves those
lengths, and the rows written for batch `i` are exactly the range
`[i * batchSize, i * batchSize + batchSize)`: rows outside it keep their
never-written state, rows inside it receive the batch's values at offset
`j - i * batchSize` (users truncated to 4 bytes, filenames to 13). -/
theorem error_log_lengths_and_row_range (E V : Type) (N batchSize i : Nat)
    (data_i : ValBatch) (errors : List E) (vis : List V) :
    ((prepare_error_log E V N).error.length = N ∧
      (prepare_error_log E V N).user.length = N ∧
      (prepare_error_log E V N).filename.length = N ∧
      (prepare_error_log E V N).visualisation.length = N) ∧
    ((write_error_log_batch batchSize (prepare_error_log E V N) data_i i errors
        vis).error.length = N ∧
      (write_error_log_batch batchSize (prepare_error_log E V N) data_i i errors
        vis).user.length = N ∧
      (write_error_log_batch batchSize (prepare_error_log E V N) data_i i errors
        vis).filename.length = N ∧
      (write_error_log_batch batchSize (prepare_error_log E V N) data_i i errors
        vis).visualisation.length = N) ∧
    (∀ j, j < N → ¬(i * batchSize ≤ j ∧ j < i * batchSize + batchSize) →
      (write_error_log_batch batchSize (prepare_error_log E V N) data_i i errors
          vis).error.get? j = some none ∧
        (write_error_log_batch batchSize (prepare_error_log E V N) data_i i errors
          vis).user.get? j = some none ∧
        (write_error_log_batch batchSize (prepare_error_log E V N) data_i i errors
          vis).filename.get? j = some none ∧
        (write_error_log_batch batchSize (prepare_error_log E V N) data_i i errors
          vis).visualisation.get? j = some none) ∧
    (∀ j, j < N → i * batchSize ≤ j → j < i * batchSize + batchSize →
      (write_error_log_batch batchSize (prepare_error_log E V N) data_i i errors
          vis).error.get? j = some (errors.get? (j - i * batchSize)) ∧
        (write_error_log_batch batchSize (prepare_error_log E V N) data_i i errors
          vis).user.get? j =
            some ((data_i.users.map (npS 4)).get? (j - i * batchSize)) ∧
        (write_error_log_batch batchSize (prepare_error_log E V N) data_i i errors
          vis).filename.get? j =
            some ((data_i.filenames.map (npS 13)).get? (j - i * batchSize)) ∧
        (write_error_log_batch batchSize (prepare_error_log E V N) data_i i errors
          vis).visualisation.get? j = some (vis.get? (j - i * batchSize))) := by
  have hcell :
      ∀ (α : Type) (vals : List α) (j : Nat), j < N →
        (sliceAssign (List.replicate N (none : Option α)) (i * batchSize)
            (i * batchSize + batchSize) vals).get? j =
          some (if i * batchSize ≤ j ∧ j < i * batchSize + batchSize then
              vals.get? (j - i * batchSize)
            else none) := by
    intro α vals j hj
    rw [sliceAssign_get?, replicate_none_get? N j hj]
    by_cases hin : i * batchSize ≤ j ∧ j < i * batchSize + batchSize
    · simp only [Option.map_some, hin, if_true, if_pos hin]
      cases vals.get? (j - i * batchSize) <;> rfl
    · simp [hin]
  refine ⟨⟨?_, ?_, ?_, ?_⟩, ⟨?_, ?_, ?_, ?_⟩, fun j hj hout => ⟨?_, ?_, ?_, ?_⟩,
      fun j hj hlo hhi => ⟨?_, ?_, ?_, ?_⟩⟩
  · simp [prepare_error_log]
  · simp [prepare_error_log]
  · simp [prepare_error_log]
  · simp [prepare_error_log]
  · simp [prepare_error_log, write_error_log_batch, sliceAssign,
      sliceAssignFrom_length]
  · simp [prepare_error_log, write_error_log_batch, sliceAssign,
      sliceAssignFrom_length]
  · simp [prepare_error_log, write_error_log_batch, sliceAssign,
      sliceAssignFrom_length]
  · simp [prepare_error_log, write_error_log_batch, sliceAssign,
      sliceAssignFrom_length]
  all_goals
    simp only [prepare_error_log, write_error_log_batch]
    rw [hcell _ _ j hj]
  all_goals first
    | rw [if_neg hout]
    | rw [if_pos ⟨hlo, hhi⟩]

/-- Witness for C5: `N = 5`, `batchSize = 2`, batch `i = 1`: rows 2 and 3
are written (row 2 receives the first user, truncated from `"uuuuuu"` to
`"uuuu"`), row 0 stays unwritten. -/
theorem error_log_lengths_and_row_range_witness :
    (prepare_error_log Nat Nat 5).error.length = 5 ∧
    (write_error_log_batch 2 (prepare_error_log Nat Nat 5)
        ⟨2, ["uuuuuu", "v"], ["f.g", "h"]⟩ 1 [10, 11] [20, 21]).user.get? 2 =
      some (some "uuuu") ∧
    (write_error_log_batch 2 (prepare_error_log Nat Nat 5)
        ⟨2, ["uuuuuu", "v"], ["f.g", "h"]⟩ 1 [10, 11] [20, 21]).error.get? 3 =
      some (some 11) ∧
    (write_error_log_batch 2 (prepare_error_log Nat Nat 5)
        ⟨2, ["uuuuuu", "v"], ["f.g", "h"]⟩ 1 [10, 11] [20, 21]).error.get? 0 =
      some none := by
  have h := error_log_lengths_and_row_range Nat Nat 5 2 1
    ⟨2, ["uuuuuu", "v"], ["f.g", "h"]⟩ [10, 11] [20, 21]
  exact ⟨h.1.1,
    (h.2.2.2 2 (by decide) (by decide) (by decide)).2.1,
    (h.2.2.2 3 (by decide) (by decide) (by decide)).1,
    (h.2.2.1 0 (by decide) (by decide)).1⟩

theorem writeSamples_complete (dir : String) :
    ∀ (names : List String) (preds : List (List Int)),
      names.length = preds.length →
      (∀ p ∈ preds, p.all inRange255 = true) →
      writeSamples dir names preds =
        (List.zipWith (fun n p => (pathJoin dir (n ++ ".npy"), p)) names preds,
          true) := by
  intro names
  induction names with
  | nil =>
    intro preds hlen _
    cases preds with
    | nil => rfl
    | cons p ps => simp at hlen
  | cons n ns ih =>
    intro preds hlen hrange
    cases preds with
    | nil => simp at hlen
    | cons p ps =>
      have hp : p.all inRange255 = true := hrange p (List.mem_cons_self p ps)
      simp only [writeSamples, hp, if_true]
      rw [ih ps (by simpa using hlen)
        (fun q hq => hrange q (List.mem_cons_of_mem p hq))]
      simp [List.zipWith]

/-- The per-batch `(path, array)` pairs `run_test` writes for one batch. -/
def batchFiles (dir : String) (B : TestBatch) : List (String × List Int) :=
  List.zipWith (fun f p => (pathJoin dir (re_sub_dots f ++ ".npy"), p))
    B.filenames B.fake_resized

theorem run_test_loop_complete (dir : String) (bs : Nat) (limit : Int) :
    ∀ (batches : List TestBatch) (i S : Nat),
      (∀ B ∈ batches, B.filenames.length = B.fake_resized.length) →
      (∀ B ∈ batches, ∀ p ∈ B.fake_resized, p.all inRange255 = true) →
      (∀ B ∈ batches, B.filenames ≠ []) →
      dataloaderBatched bs batches →
      S = (batches.map fun B => B.filenames.length).sum →
      (limit ≤ 0 ∨ ((i * bs : Int) + (S : Int) ≤ limit)) →
      run_test_loop dir bs limit i batches =
        (batches.flatMap (batchFiles dir), true) := by
  intro batches
  induction batches with
  | nil => intro i S _ _ _ _ _ _; rfl
  | cons B rest ih =>
    intro i S halign hrange hne hchunk hS hlim
    have hBne : B.filenames ≠ [] := hne B (List.mem_cons_self B rest)
    have hBlen : 0 < B.filenames.length := List.length_pos.mpr hBne
    simp only [List.map_cons, List.sum_cons] at hS
    have hnobreak : ¬(0 < limit ∧ limit ≤ (i * bs : Int)) := by
      rcases hlim with hle0 | hsum
      · omega
      · intro ⟨hpos, hbrk⟩
        omega
    have hws : writeSamples dir (B.filenames.map re_sub_dots) B.fake_resized =
        (batchFiles dir B, true) := by
      rw [writeSamples_complete dir (B.filenames.map re_sub_dots) B.fake_resized
        (by simpa using halign B (List.mem_cons_self B rest))
        (hrange B (List.mem_cons_self B rest))]
      rw [batchFiles, List.zipWith_map_left]
    simp only [run_test_loop, if_neg hnobreak, hws]
    cases rest with
    | nil =>
      simp [run_test_loop, batchFiles]
    | cons r rs =>
      have hBfull : B.filenames.length = bs ∧ dataloaderBatched bs (r :: rs) :=
        hchunk
      rw [ih (i + 1) (((r :: rs).map fun B => B.filenames.length).sum)
        (fun C hC => halign C (List.mem_cons_of_mem B hC))
        (fun C hC => hrange C (List.mem_cons_of_mem B hC))
        (fun C hC => hne C (List.mem_cons_of_mem B hC))
        hBfull.2
        rfl
        (by
          rcases hlim with hle0 | hsum
          · exact Or.inl hle0
          · right
            have hring : (((i + 1 : Nat) : Int)) * (bs : Int) =
                (i : Int) * bs + bs := by
              push_cast
              ring
            have hlenB := hBfull.1
            omega)]
      simp [List.flatMap_cons]

theorem zipWith_const_left (g : α → γ) :
    ∀ (fs : List α) (ps : List β), fs.length = ps.length →
      List.zipWith (fun f _ => g f) fs ps = fs.map g := by
  intro fs
  induction fs with
  | nil => intro ps _; rfl
  | cons f fs ih =>
    intro ps hlen
    cases ps with
    | nil => simp at hlen
    | cons p ps =>
      simp only [List.zipWith, List.map_cons]
      rw [ih ps (by simpa using hlen)]

theorem flatMap_congr_mem (l : List α) (f g : α → List β)
    (h : ∀ a ∈ l, f a = g a) : l.flatMap f = l.flatMap g := by
  induction l with
  | nil => rfl
  | cons a l ih =>
    simp only [List.flatMap_cons]
    rw [h a (List.mem_cons_self a l),
      ih fun b hb => h b (List.mem_cons_of_mem a hb)]

theorem batchFiles_map_fst (dir : String) (B : TestBatch)
    (h : B.filenames.length = B.fake_resized.length) :
    (batchFiles dir B).map Prod.fst =
      B.filenames.map fun f => pathJoin dir (re_sub_dots f ++ ".npy") := by
  rw [batchFiles, List.map_zipWith]
  exact zipWith_const_left _ B.filenames B.fake_resized h

theorem batchFiles_length (dir : String) (B : TestBatch)
    (h : B.filenames.length = B.fake_resized.length) :
    (batchFiles dir B).length = B.filenames.length := by
  simp [batchFiles, List.length_zipWith, h]

/-- C3: on a dataset of `N` samples delivered by a standard dataloader
(every batch but the last of size `batchSize`, batches non-empty and with
aligned fields, all model outputs in pixel range), any `limit ≥ N` — and
any `limit ≤ 0`, which disables the early stop — makes `run_test` process
every batch: it writes exactly `N` per-sample output files and a manifest
listing exactly those `N` output paths, one per line, in traversal
order. -/
theorem run_test_full_traversal (dir : String) (bs : Nat) (limit : Int)
    (batches : List TestBatch) (N : Nat)
    (halign : ∀ B ∈ batches, B.filenames.length = B.fake_resized.length)
    (hrange : ∀ B ∈ batches, ∀ p ∈ B.fake_resized, p.all inRange255 = true)
    (hne : ∀ B ∈ batches, B.filenames ≠ [])
    (hchunk : dataloaderBatched bs batches)
    (hN : N = (batches.map fun B => B.filenames.length).sum)
    (hlim : limit ≤ 0 ∨ (N : Int) ≤ limit) :
    (run_test dir bs limit batches).written.length = N ∧
    (run_test dir bs limit batches).manifest =
      some (batches.flatMap fun B =>
        B.filenames.map fun f => pathJoin dir (re_sub_dots f ++ ".npy")) ∧
    ((run_test dir bs limit batches).manifest.map List.length) = some N := by
  have hloop := run_test_loop_complete dir bs limit batches 0
    ((batches.map fun B => B.filenames.length).sum)
    halign hrange hne hchunk rfl
    (by
      rcases hlim with h | h
      · exact Or.inl h
      · right
        omega)
  have hwritten : (run_test dir bs limit batches).written =
      batches.flatMap (batchFiles dir) := by
    simp [run_test, hloop]
  have hlen : (batches.flatMap (batchFiles dir)).length = N := by
    rw [List.length_flatMap, hN]
    congr 1
    exact List.map_congr_left fun B hB => by
      simp [Function.comp, batchFiles_length dir B (halign B hB)]
  have hmanifest : (run_test dir bs limit batches).manifest =
      some (batches.flatMap fun B =>
        B.filenames.map fun f => pathJoin dir (re_sub_dots f ++ ".npy")) := by
    simp only [run_test, hloop]
    rw [if_true]
    congr 1
    rw [List.map_flatMap]
    exact flatMap_congr_mem batches _ _
      fun B hB => batchFiles_map_fst dir B (halign B hB)
  refine ⟨by rw [hwritten, hlen], hmanifest, ?_⟩
  rw [hmanifest]
  simp only [Option.map_some']
  congr 1
  have := hlen
  rw [List.length_flatMap] at this ⊢
  rw [← this]
  congr 1
  exact List.map_congr_left fun B hB => by
    simp [Function.comp, batchFiles_length dir B (halign B hB),
      batchFiles_map_fst dir B (halign B hB)]

/-- Witness for C3: a 3-sample dataset in two batches (`batchSize = 2`),
`limit = 5 ≥ 3`: three files and a three-line manifest in traversal
order, dots stripped from the names. -/
theorem run_test_full_traversal_witness :
    (run_test "d" 2 5
      [⟨["a.b", "cd"], [[0, 255], [3]]⟩, ⟨["e.f.g"], [[7]]⟩]).written.length = 3 ∧
    (run_test "d" 2 5
      [⟨["a.b", "cd"], [[0, 255], [3]]⟩, ⟨["e.f.g"], [[7]]⟩]).manifest =
      some ["d/ab.npy", "d/cd.npy", "d/efg.npy"] := by
  have h := run_test_full_traversal "d" 2 5
    [⟨["a.b", "cd"], [[0, 255], [3]]⟩, ⟨["e.f.g"], [[7]]⟩] 3
    (by decide) (by decide) (by decide)
    (by simp [dataloaderBatched]) (by decide)
    (Or.inr (by norm_num))
  exact ⟨h.1, h.2.1⟩

theorem writeSamples_written_in_range (dir : String) :
    ∀ (names : List String) (preds : List (List Int)) (pa : String × List Int),
      pa ∈ (writeSamples dir names preds).1 → pa.2.all inRange255 = true := by
  intro names
  induction names with
  | nil => intro preds pa h; simp [writeSamples] at h
  | cons n ns ih =>
    intro preds pa h
    cases preds with
    | nil => simp [writeSamples] at h
    | cons p ps =>
      by_cases hp : p.all inRange255 = true
      · simp only [writeSamples, hp, if_true] at h
        rcases List.mem_cons.mp h with he | hm
        · rw [he]
          exact hp
        · exact ih ps pa hm
      · simp [writeSamples, hp] at h

theorem run_test_loop_written_in_range (dir : String) (bs : Nat) (limit : Int) :
    ∀ (batches : List TestBatch) (i : Nat) (pa : String × List Int),
      pa ∈ (run_test_loop dir bs limit i batches).1 →
      pa.2.all inRange255 = true := by
  intro batches
  induction batches with
  | nil => intro i pa h; simp [run_test_loop] at h
  | cons B rest ih =>
    intro i pa h
    simp only [run_test_loop] at h
    by_cases hbrk : 0 < limit ∧ limit ≤ (i * bs : Int)
    · rw [if_pos hbrk] at h
      simp at h
    · rw [if_neg hbrk] at h
      cases hW : writeSamples dir (B.filenames.map re_sub_dots) B.fake_resized with
      | mk ws ok =>
        rw [hW] at h
        cases ok with
        | true =>
          simp only [if_true] at h
          rcases List.mem_append.mp h with hm | hm
          · exact writeSamples_written_in_range dir _ _ pa (by rw [hW]; exact hm)
          · exact ih (i + 1) pa hm
        | false =>
          simp only [Bool.false_eq_true, if_false] at h
          exact writeSamples_written_in_range dir _ _ pa (by rw [hW]; exact h)

/-- C4: every element of every prediction array `run_test` saves lies in
`[0, 255]`: the per-sample assertion fires before `np.save`, so a sample
whose output leaves the range never gets its file written (the run aborts
with only in-range files on disk). -/
theorem run_test_saved_arrays_in_range (dir : String) (bs : Nat) (limit : Int)
    (batches : List TestBatch) :
    ∀ pa ∈ (run_test dir bs limit batches).written, ∀ v ∈ pa.2,
      (0 : Int) ≤ v ∧ v ≤ 255 := by
  intro pa hpa v hv
  have h := run_test_loop_written_in_range dir bs limit batches 0 pa
    (by simpa [run_test] using hpa)
  have hall := List.all_eq_true.mp h v hv
  simpa [inRange255, Bool.and_eq_true, decide_eq_true_eq] using hall

/-- Witness for C4: a run that aborts on an out-of-range sample has
written no file for it, and the value 255 of a written file is in
range. -/
theorem run_test_saved_arrays_in_range_witness :
    (0 : Int) ≤ 255 ∧ (255 : Int) ≤ 255 :=
  run_test_saved_arrays_in_range "d" 2 5 [⟨["a.b"], [[0, 255]]⟩]
    ("d/ab.npy", [0, 255]) (by decide) 255 (by decide)

theorem re_sub_dots_chars_eq_filter :
    ∀ cs : List Char, re_sub_dots_chars cs = cs.filter (fun c => c ≠ '.') := by
  intro cs
  induction cs with
  | nil => rfl
  | cons c cs ih =>
    by_cases hc : c = '.'
    · subst hc
      simp [re_sub_dots_chars, ih]
    · simp [re_sub_dots_chars, hc, ih]

theorem writeSamples_paths (dir : String) :
    ∀ (names : List String) (preds : List (List Int)) (pa : String × List Int),
      pa ∈ (writeSamples dir names preds).1 →
      ∃ n ∈ names, pa.1 = pathJoin dir (n ++ ".npy") := by
  intro names
  induction names with
  | nil => intro preds pa h; simp [writeSamples] at h
  | cons n ns ih =>
    intro preds pa h
    cases preds with
    | nil => simp [writeSamples] at h
    | cons p ps =>
      by_cases hp : p.all inRange255 = true
      · simp only [writeSamples, hp, if_true] at h
        rcases List.mem_cons.mp h with he | hm
        · exact ⟨n, List.mem_cons_self n ns, by rw [he]⟩
        · obtain ⟨m, hm', hpa⟩ := ih ps pa hm
          exact ⟨m, List.mem_cons_of_mem n hm', hpa⟩
      · simp [writeSamples, hp] at h

theorem run_test_loop_paths (dir : String) (bs : Nat) (limit : Int) :
    ∀ (batches : List TestBatch) (i : Nat) (pa : String × List Int),
      pa ∈ (run_test_loop dir bs limit i batches).1 →
      ∃ f, (∃ B ∈ batches, f ∈ B.filenames) ∧
        pa.1 = pathJoin dir (re_sub_dots f ++ ".npy") := by
  intro batches
  induction batches with
  | nil => intro i pa h; simp [run_test_loop] at h
  | cons B rest ih =>
    intro i pa h
    simp only [run_test_loop] at h
    by_cases hbrk : 0 < limit ∧ limit ≤ (i * bs : Int)
    · rw [if_pos hbrk] at h
      simp at h
    · rw [if_neg hbrk] at h
      cases hW : writeSamples dir (B.filenames.map re_sub_dots) B.fake_resized with
      | mk ws ok =>
        rw [hW] at h
        have hfromB : pa ∈ ws →
            ∃ f, (∃ C ∈ B :: rest, f ∈ C.filenames) ∧
              pa.1 = pathJoin dir (re_sub_dots f ++ ".npy") := by
          intro hm
          obtain ⟨n, hn, hpa⟩ :=
            writeSamples_paths dir _ _ pa (by rw [hW]; exact hm)
          obtain ⟨f, hf, rfl⟩ := List.mem_map.mp hn
          exact ⟨f, ⟨B, List.mem_cons_self B rest, hf⟩, hpa⟩
        cases ok with
        | true =>
          simp only [if_true] at h
          rcases List.mem_append.mp h with hm | hm
          · exact hfromB hm
          · obtain ⟨f, ⟨C, hC, hfC⟩, hpa⟩ := ih (i + 1) pa hm
            exact ⟨f, ⟨C, List.mem_cons_of_mem B hC, hfC⟩, hpa⟩
        | false =>
          simp only [Bool.false_eq_true, if_false] at h
          exact hfromB h

/-- C9: every output file `run_test` writes is named by the sample's
filename with EVERY literal `'.'` removed (a global, not first-occurrence,
substitution) followed by `".npy"`, joined to the results directory:
`re_sub_dots` equals filtering out all dots, and every written path comes
from some batch filename through that sanitization. -/
theorem run_test_output_names (dir : String) (bs : Nat) (limit : Int)
    (batches : List TestBatch) :
    (∀ s : String, (re_sub_dots s).data = s.data.filter (fun c => c ≠ '.')) ∧
    ∀ pa ∈ (run_test dir bs limit batches).written,
      ∃ f, (∃ B ∈ batches, f ∈ B.filenames) ∧
        pa.1 = pathJoin dir (re_sub_dots f ++ ".npy") := by
  constructor
  · intro s
    exact re_sub_dots_chars_eq_filter s.data
  · intro pa hpa
    exact run_test_loop_paths dir bs limit batches 0 pa
      (by simpa [run_test] using hpa)

/-- Witness for C9: the filename `"0001.2345.npy"` has both embedded dots
(and the extension dot) stripped, giving output key `"00012345npy"` and
path `"d/00012345npy.npy"`. -/
theorem run_test_output_names_witness :
    (re_sub_dots "0001.2345.npy").data = "00012345npy".data ∧
    (∃ f, (∃ B ∈ [(⟨["0001.2345.npy"], [[0]]⟩ : TestBatch)], f ∈ B.filenames) ∧
      "d/00012345npy.npy" = pathJoin "d" (re_sub_dots f ++ ".npy")) := by
  have h := run_test_output_names "d" 2 5 [⟨["0001.2345.npy"], [[0]]⟩]
  exact ⟨(h.1 "0001.2345.npy").trans (by decide),
    h.2 ("d/00012345npy.npy", [0]) (by decide)⟩

/-- Witness for C8: the default `limit = -1` is resolved to the dataset
size before index selection and validation. -/
theorem run_resolves_limit_witness :
    ∃ L : Int, ((-1 : Int) ≤ 0 → L = (dsW.N : Int)) ∧
      (0 < (-1 : Int) → L = -1) ∧
      run dsW "validation" (fun b => List.replicate b.size (0 : Nat)) "full"
          (-1) =
        match get_validation_indices dsW "full" L with
        | .error e => .error e
        | .ok indices =>
          match run_validation "validation"
              (fun b => List.replicate b.size (0 : Nat)) L
              (get_iterator dsW indices) with
          | .error e => .error e
          | .ok errs => .ok ⟨L, indices, errs⟩ :=
  run_resolves_limit dsW "validation" (fun b => List.replicate b.size (0 : Nat))
    "full" (-1)

end Seg2Eye
